import Mathlib

/-!
Verification of the time-input parsing/validation core and the task-ID
validator of the commutatus-tracker repository.

The definitions below are a shallow embedding of:
  * `src/utils/time.ts` — `parseTimeInput`, `roundToNearestQuarterHour`,
    `validateTimeEntry`, `formatMinutes`, `requiresConfirmation`;
  * `src/task/resolver.ts` — `TASK_ID_REGEX` and
    `GitBranchTaskResolver.isValidTaskId`.

Modelling conventions:
  * JavaScript strings are `List Char`; `String.prototype.trim` is modelled
    over the ASCII whitespace characters (space, tab, LF, VT, FF, CR) and
    `toLowerCase` over ASCII `A`-`Z` (the inputs of this component are
    ASCII duration strings and task IDs).
  * JavaScript numbers produced here are always integers, embedded as
    `Nat`/`Int`; `Math.round(x)` for the arguments arising in this code is
    round-half-toward-plus-infinity, i.e. `⌊x + 1/2⌋`.  The decimal-hour
    arithmetic of `parseFloat(h) * 60` is modelled with exact rational
    arithmetic, which agrees with IEEE doubles on all inputs of the
    component's contract (short decimal tokens; exact ties are impossible
    for finite decimals, see `roundToNearestQuarterHour`'s comment).
  * The regexes are embedded as the deterministic matchers they denote:
    each one's backtracking collapses to maximal-run scanning because a
    shortened digit/letter run is always followed by another digit/letter,
    which no continuation of these patterns accepts.
-/

/-- ASCII whitespace, the characters removed by `String.prototype.trim`
that can occur in this component's inputs. -/
def isWsChar (c : Char) : Bool :=
  decide (c.toNat = 32 ∨ c.toNat = 9 ∨ c.toNat = 10 ∨ c.toNat = 13 ∨
          c.toNat = 11 ∨ c.toNat = 12)

/-- ASCII decimal digit, `\d` of the source regexes. -/
def isDigitChar (c : Char) : Bool :=
  decide (48 ≤ c.toNat ∧ c.toNat ≤ 57)

/-- ASCII uppercase letter, `[A-Z]` of `TASK_ID_REGEX`. -/
def isUpperChar (c : Char) : Bool :=
  decide (65 ≤ c.toNat ∧ c.toNat ≤ 90)

/-- ASCII lowercasing of one character, as done by
`String.prototype.toLowerCase` on the ASCII range. -/
def asciiLower (c : Char) : Char :=
  if 65 ≤ c.toNat ∧ c.toNat ≤ 90 then Char.ofNat (c.toNat + 32) else c

/-- Drop leading whitespace (left half of `String.prototype.trim`). -/
def trimLeftWs : List Char → List Char
  | [] => []
  | c :: cs => if isWsChar c then trimLeftWs cs else c :: cs

/-- Drop trailing whitespace (right half of `String.prototype.trim`). -/
def trimRightWs : List Char → List Char
  | [] => []
  | c :: cs =>
    if (trimRightWs cs).isEmpty && isWsChar c then [] else c :: trimRightWs cs

/-- `input.trim().toLowerCase()`, the normalisation `parseTimeInput`
applies before matching (src/utils/time.ts line 17). -/
def normalizeInput (l : List Char) : List Char :=
  (trimRightWs (trimLeftWs l)).map asciiLower

/-- Numeric value of a digit character. -/
def digitVal (c : Char) : Nat := c.toNat - 48

/-- `parseInt(s, 10)` on a string of decimal digits. -/
def digitsVal (l : List Char) : Nat :=
  l.foldl (fun a c => 10 * a + digitVal c) 0

/-- The anchored regex `/^(\d{1,2}):(\d{2})$/` of src/utils/time.ts line
20: one or two digit hours, a colon, exactly two digit minutes.  Returns
the two captured numbers. -/
def hhmmShape (t : List Char) : Option (Nat × Nat) :=
  match t with
  | [a, b, c, d] =>
    if isDigitChar a && (b == ':') && isDigitChar c && isDigitChar d then
      some (digitVal a, 10 * digitVal c + digitVal d)
    else none
  | [a, a2, b, c, d] =>
    if isDigitChar a && isDigitChar a2 && (b == ':') && isDigitChar c &&
       isDigitChar d then
      some (10 * digitVal a + digitVal a2, 10 * digitVal c + digitVal d)
    else none
  | _ => none

/-- The `HH:MM` branch of `parseTimeInput` (src/utils/time.ts lines
20-29): when the shape matches and the guard `hours >= 0 && minutes >= 0
&& minutes < 60` holds, the result is `hours * 60 + minutes`; a shape
match failing the guard falls through to the later branches. -/
def hhmmParse (t : List Char) : Option Nat :=
  match hhmmShape t with
  | some (h, m) => if m < 60 then some (h * 60 + m) else none
  | none => none

/-- Split a list into its maximal leading run of characters satisfying
`p` and the remainder. -/
def splitRun (p : Char → Bool) : List Char → List Char × List Char
  | [] => ([], [])
  | c :: cs =>
    if p c then (c :: (splitRun p cs).1, (splitRun p cs).2)
    else ([], c :: cs)

/-- One anchored attempt of the regex `/(\d+(?:\.\d+)?)h/` at the head of
`l`: a maximal digit run, an optional `.` followed by a maximal digit
run, then the letter `h`.  Returns (integer part, fraction digits value,
fraction digit count). -/
def tryHourAt (l : List Char) : Option (Nat × Nat × Nat) :=
  match splitRun isDigitChar l with
  | ([], _) => none
  | (d, c :: r2) =>
    if c == '.' then
      match splitRun isDigitChar r2 with
      | ([], _) => none
      | (f, c2 :: _) =>
        if c2 == 'h' then some (digitsVal d, digitsVal f, f.length) else none
      | (_, []) => none
    else if c == 'h' then some (digitsVal d, 0, 0)
    else none
  | (_, []) => none

/-- Leftmost match of `/(\d+(?:\.\d+)?)h/` in `l`, as found by
`trimmed.match(...)` (src/utils/time.ts line 33). -/
def findHourToken : List Char → Option (Nat × Nat × Nat)
  | [] => none
  | c :: cs =>
    match tryHourAt (c :: cs) with
    | some x => some x
    | none => findHourToken cs

/-- One anchored attempt of the regex `/(\d+)m/` at the head of `l`. -/
def tryMinuteAt (l : List Char) : Option Nat :=
  match splitRun isDigitChar l with
  | ([], _) => none
  | (d, c :: _) => if c == 'm' then some (digitsVal d) else none
  | (_, []) => none

/-- Leftmost match of `/(\d+)m/` in `l` (src/utils/time.ts line 34). -/
def findMinuteToken : List Char → Option Nat
  | [] => none
  | c :: cs =>
    match tryMinuteAt (c :: cs) with
    | some x => some x
    | none => findMinuteToken cs

/-- `Math.round(parseFloat(hourDigits) * 60)` for an hour token with
integer part `i` and `k` fraction digits of value `f`, computed with
exact rational arithmetic: `⌊(i + f/10^k) * 60 + 1/2⌋`. -/
def hourTokenMinutes (i f k : Nat) : Nat :=
  ((i * 10 ^ k + f) * 120 + 10 ^ k) / (2 * 10 ^ k)

/-- Contribution of the (optional) hour token to `totalMinutes`
(src/utils/time.ts lines 36-39). -/
def hourContribution : Option (Nat × Nat × Nat) → Nat
  | some (i, f, k) => hourTokenMinutes i f k
  | none => 0

/-- Contribution of the (optional) minute token to `totalMinutes`
(src/utils/time.ts lines 41-43). -/
def minuteContribution : Option Nat → Nat
  | some m => m
  | none => 0

/-- The pure-number branch `/^(\d+)$/` of `parseTimeInput`
(src/utils/time.ts lines 55-64): the whole string is digits and the value
passes the guard `minutes >= 0 && minutes <= 480`. -/
def pureNumber (t : List Char) : Option Nat :=
  if !t.isEmpty && t.all isDigitChar then
    if digitsVal t ≤ 480 then some (digitsVal t) else none
  else none

/-- The three matching branches of `parseTimeInput` applied to the
normalised input, in source order: `HH:MM`, then hour/minute tokens
(taken when `hourMatch || minuteMatch`), then pure number. -/
def parseCore (t : List Char) : Option Nat :=
  match hhmmParse t with
  | some v => some v
  | none =>
    if (findHourToken t).isSome || (findMinuteToken t).isSome then
      some (hourContribution (findHourToken t) +
            minuteContribution (findMinuteToken t))
    else pureNumber t

/-- `ParsedTime` of src/types.ts: the minute count and the caller's
original string. -/
structure ParsedTime where
  minutes : Nat
  originalInput : List Char
deriving DecidableEq

/-- `parseTimeInput` of src/utils/time.ts lines 12-67.  The `!input`
guard rejects the empty string; the `typeof input !== 'string'` guard is
subsumed by typing. -/
def parseTimeInput : List Char → Option ParsedTime
  | [] => none
  | input =>
    (parseCore (normalizeInput input)).map fun v =>
      { minutes := v, originalInput := input }

/-- `roundToNearestQuarterHour` of src/utils/time.ts lines 72-74:
`Math.round(minutes / 15) * 15`.  `Math.round x = ⌊x + 1/2⌋`, and
`⌊m/15 + 1/2⌋ = (2*m + 15) / 30` under floor division; `/` on `Int` is
Euclidean division, which coincides with floor division for the positive
divisor `30`.  No exact tie `m/15 = k + 1/2` exists for integer `m`. -/
def roundToNearestQuarterHour (minutes : Int) : Int :=
  (2 * minutes + 15) / 30 * 15

/-- The warning issued by `validateTimeEntry` above 480 minutes. -/
def overLimitWarning : String :=
  "Time entries cannot exceed 480 minutes (8 hours)"

/-- The warning issued by `validateTimeEntry` when rounding changed the
value. -/
def roundingWarning (rounded : Int) : String :=
  s!"Time rounded to {rounded} minutes (nearest 15 minutes)"

/-- The validation result record of `validateTimeEntry`. -/
structure ValidationResult where
  isValid : Bool
  roundedMinutes : Int
  warning : Option String
deriving DecidableEq

/-- `validateTimeEntry` of src/utils/time.ts lines 79-103. -/
def validateTimeEntry (minutes : Int) : ValidationResult :=
  if minutes ≤ 0 then
    { isValid := false, roundedMinutes := 0, warning := none }
  else if 480 < minutes then
    { isValid := false, roundedMinutes := 0, warning := some overLimitWarning }
  else
    let rounded := roundToNearestQuarterHour minutes
    if rounded ≠ minutes then
      { isValid := true, roundedMinutes := rounded,
        warning := some (roundingWarning rounded) }
    else
      { isValid := true, roundedMinutes := rounded, warning := none }

/-- Decimal digit character of `d < 10`. -/
def digitCharOf (d : Nat) : Char := Char.ofNat (48 + d)

/-- Decimal digits of a natural number (fuel-based so that it reduces in
the kernel; `n + 1` units of fuel always suffice since the argument
shrinks by a factor of ten each step). -/
def natCharsGo : Nat → Nat → List Char
  | 0, _ => []
  | fuel + 1, n =>
    if n < 10 then [digitCharOf n]
    else natCharsGo fuel (n / 10) ++ [digitCharOf (n % 10)]

/-- Decimal representation of a natural number. -/
def natChars (n : Nat) : List Char := natCharsGo (n + 1) n

/-- Decimal representation of an integer, as interpolated by the
template literals of `formatMinutes`. -/
def intChars (m : Int) : List Char :=
  if m < 0 then '-' :: natChars m.natAbs else natChars m.toNat

/-- `formatMinutes` of src/utils/time.ts lines 108-121.  For the
`minutes ≥ 60` path, `Math.floor(minutes / 60)` and `minutes % 60` agree
with Euclidean `/` and `%` because the operand is positive. -/
def formatMinutes (minutes : Int) : List Char :=
  if minutes < 60 then intChars minutes ++ ['m']
  else
    let hours := minutes / 60
    let remainingMinutes := minutes % 60
    if remainingMinutes = 0 then intChars hours ++ ['h']
    else intChars hours ++ ['h', ' '] ++ intChars remainingMinutes ++ ['m']

/-- `requiresConfirmation` of src/utils/time.ts lines 126-128:
`minutes >= 240`. -/
def requiresConfirmation (minutes : Int) : Bool := 240 ≤ minutes

/-- One anchored attempt of `TASK_ID_REGEX = /[A-Z]+-\d+/`
(src/task/resolver.ts line 13) at the head of `l`: a maximal uppercase
run, a hyphen, then at least one digit. -/
def tryTaskIdAt (l : List Char) : Bool :=
  !(splitRun isUpperChar l).1.isEmpty &&
    (match (splitRun isUpperChar l).2 with
     | c :: d :: _ => c == '-' && isDigitChar d
     | _ => false)

/-- `TASK_ID_REGEX.test`: the unanchored regex matches somewhere in the
string. -/
def containsTaskId : List Char → Bool
  | [] => false
  | c :: cs => tryTaskIdAt (c :: cs) || containsTaskId cs

/-- `GitBranchTaskResolver.isValidTaskId` of src/task/resolver.ts lines
88-90: `TASK_ID_REGEX.test(taskId)`. -/
def isValidTaskId (taskId : List Char) : Bool := containsTaskId taskId

/-- Modelled from the spec: the task-ID pattern of the glossary — "short
alphanumeric identifier (pattern: uppercase letters, hyphen, digits)" —
read as an anchored shape: the whole string is one or more uppercase
letters, a hyphen, then one or more digits.  (The source has no anchored
validator; `isValidTaskId` tests the unanchored `TASK_ID_REGEX`.) -/
def specTaskIdShape (s : List Char) : Bool :=
  !(splitRun isUpperChar s).1.isEmpty &&
    (match (splitRun isUpperChar s).2 with
     | c :: rest =>
       c == '-' && !(splitRun isDigitChar rest).1.isEmpty &&
         (splitRun isDigitChar rest).2.isEmpty
     | [] => false)

/-- C1: for every integer `m`, `validateTimeEntry m` returns invalid with
`roundedMinutes = 0` and no warning when `m ≤ 0`; invalid with
`roundedMinutes = 0` and the over-limit warning when `m > 480`; and for
`1 ≤ m ≤ 480` it is valid with `roundedMinutes = roundToNearestQuarterHour m`
and a rounding warning exactly when the rounded value differs from `m`
(in particular, multiples of 15 in range come back unchanged with no
warning). -/
theorem validateTimeEntry_spec (m : Int) :
    (m ≤ 0 → validateTimeEntry m =
      { isValid := false, roundedMinutes := 0, warning := none }) ∧
    (480 < m → validateTimeEntry m =
      { isValid := false, roundedMinutes := 0,
        warning := some overLimitWarning }) ∧
    (1 ≤ m → m ≤ 480 → validateTimeEntry m =
      { isValid := true, roundedMinutes := roundToNearestQuarterHour m,
        warning :=
          if roundToNearestQuarterHour m = m then none
          else some (roundingWarning (roundToNearestQuarterHour m)) }) ∧
    (1 ≤ m → m ≤ 480 → m % 15 = 0 → validateTimeEntry m =
      { isValid := true, roundedMinutes := m, warning := none }) := by
  refine ⟨fun h => ?_, fun h => ?_, fun h1 h2 => ?_, fun h1 h2 h3 => ?_⟩
  · simp only [validateTimeEntry, if_pos h]
  · have h0 : ¬ m ≤ 0 := by omega
    simp only [validateTimeEntry, if_neg h0, if_pos h]
  · have h0 : ¬ m ≤ 0 := by omega
    have h4 : ¬ 480 < m := by omega
    simp only [validateTimeEntry, if_neg h0, if_neg h4]
    by_cases hr : roundToNearestQuarterHour m = m
    · simp [hr]
    · simp [hr]
  · have h0 : ¬ m ≤ 0 := by omega
    have h4 : ¬ 480 < m := by omega
    have hr : roundToNearestQuarterHour m = m := by
      unfold roundToNearestQuarterHour; omega
    simp only [validateTimeEntry, if_neg h0, if_neg h4, hr]
    simp

/-- Witness for C1: the three regimes of `validateTimeEntry` at the
concrete inputs -5, 500, 100 and 60. -/
theorem validateTimeEntry_spec_witness :
    validateTimeEntry (-5) =
      { isValid := false, roundedMinutes := 0, warning := none } ∧
    validateTimeEntry 500 =
      { isValid := false, roundedMinutes := 0,
        warning := some overLimitWarning } ∧
    validateTimeEntry 100 =
      { isValid := true, roundedMinutes := roundToNearestQuarterHour 100,
        warning :=
          if roundToNearestQuarterHour 100 = 100 then none
          else some (roundingWarning (roundToNearestQuarterHour 100)) } ∧
    validateTimeEntry 60 =
      { isValid := true, roundedMinutes := 60, warning := none } :=
  ⟨(validateTimeEntry_spec (-5)).1 (by decide),
   (validateTimeEntry_spec 500).2.1 (by decide),
   (validateTimeEntry_spec 100).2.2.1 (by decide) (by decide),
   (validateTimeEntry_spec 60).2.2.2 (by decide) (by decide) (by decide)⟩

/-- C4: for every non-negative integer `m`, `roundToNearestQuarterHour m`
is a multiple of 15 and is strictly nearer to `m` than every other
multiple of 15 (so no tie ever arises for integer input), and the
concrete values 7, 8, 22, 23, 477 round to 0, 15, 15, 30, 480. -/
theorem roundToNearestQuarterHour_nearest :
    (∀ m : Int, 0 ≤ m →
      (15 ∣ roundToNearestQuarterHour m) ∧
      ∀ k : Int, 15 ∣ k → k ≠ roundToNearestQuarterHour m →
        (m - roundToNearestQuarterHour m).natAbs < (m - k).natAbs) ∧
    roundToNearestQuarterHour 7 = 0 ∧
    roundToNearestQuarterHour 8 = 15 ∧
    roundToNearestQuarterHour 22 = 15 ∧
    roundToNearestQuarterHour 23 = 30 ∧
    roundToNearestQuarterHour 477 = 480 := by
  refine ⟨fun m hm => ⟨⟨(2 * m + 15) / 30, ?_⟩, fun k hk hne => ?_⟩,
    by decide, by decide, by decide, by decide, by decide⟩
  · unfold roundToNearestQuarterHour; ring
  · obtain ⟨j, rfl⟩ := hk
    unfold roundToNearestQuarterHour at *
    omega

/-- Witness for C4: at `m = 8` the rounded value 15 is a multiple of 15
strictly nearer to 8 than the multiple 0. -/
theorem roundToNearestQuarterHour_nearest_witness :
    (15 ∣ roundToNearestQuarterHour 8) ∧
    ((8 : Int) - roundToNearestQuarterHour 8).natAbs <
      ((8 : Int) - 0).natAbs :=
  ⟨(roundToNearestQuarterHour_nearest.1 8 (by decide)).1,
   (roundToNearestQuarterHour_nearest.1 8 (by decide)).2 0 ⟨0, by decide⟩
     (by decide)⟩

/-- C6: every integer `m` with `1 ≤ m ≤ 7` is declared valid by
`validateTimeEntry` with `roundedMinutes = 0` and a rounding warning,
although the zero-minute value itself is rejected as invalid when passed
directly. -/
theorem validateTimeEntry_small_positive :
    (∀ m : Int, 1 ≤ m → m ≤ 7 →
      validateTimeEntry m =
        { isValid := true, roundedMinutes := 0,
          warning := some (roundingWarning 0) }) ∧
    validateTimeEntry 0 =
      { isValid := false, roundedMinutes := 0, warning := none } := by
  constructor
  · intro m h1 h7
    have h0 : ¬ m ≤ 0 := by omega
    have h4 : ¬ 480 < m := by omega
    have hr : roundToNearestQuarterHour m = 0 := by
      unfold roundToNearestQuarterHour; omega
    have hne : ¬ roundToNearestQuarterHour m = m := by omega
    simp only [validateTimeEntry, if_neg h0, if_neg h4, hr]
    simp [hne, hr]
    omega
  · decide

/-- Witness for C6: `validateTimeEntry 3` is valid with rounded value 0
and a rounding warning. -/
theorem validateTimeEntry_small_positive_witness :
    validateTimeEntry 3 =
      { isValid := true, roundedMinutes := 0,
        warning := some (roundingWarning 0) } :=
  validateTimeEntry_small_positive.1 3 (by decide) (by decide)

/-- C10: `requiresConfirmation m` is true exactly when `m ≥ 240`; in
particular it is false at 239 and true at 240. -/
theorem requiresConfirmation_spec :
    (∀ m : Int, requiresConfirmation m = true ↔ 240 ≤ m) ∧
    requiresConfirmation 239 = false ∧
    requiresConfirmation 240 = true := by
  refine ⟨fun m => ?_, by decide, by decide⟩
  simp [requiresConfirmation]

/-- Witness for C10: the threshold accepts 240. -/
theorem requiresConfirmation_spec_witness : requiresConfirmation 240 = true :=
  (requiresConfirmation_spec.1 240).mpr (by decide)

set_option maxRecDepth 4000 in
/-- Every multiple of 15 in `[0, 480]` survives a round trip through
`formatMinutes` and `parseTimeInput`; checked exhaustively. -/
theorem parse_format_multiple : ∀ n : Nat, n ≤ 480 → n % 15 = 0 →
    parseTimeInput (formatMinutes (n : Int)) =
      some { minutes := n, originalInput := formatMinutes (n : Int) } := by
  decide

/-- C5: for every integer `m` in `[0, 480]`, parsing the canonical
display form of `roundToNearestQuarterHour m` succeeds and its minutes
field equals `roundToNearestQuarterHour m` (the second conjunct casts the
`Nat` minutes field back to the integer rounded value). -/
theorem parse_format_roundtrip (m : Int) (h0 : 0 ≤ m) (h1 : m ≤ 480) :
    parseTimeInput (formatMinutes (roundToNearestQuarterHour m)) =
      some { minutes := (roundToNearestQuarterHour m).toNat,
             originalInput := formatMinutes (roundToNearestQuarterHour m) } ∧
    ((roundToNearestQuarterHour m).toNat : Int) =
      roundToNearestQuarterHour m := by
  have hnn : 0 ≤ roundToNearestQuarterHour m := by
    unfold roundToNearestQuarterHour; omega
  have hcast : ((roundToNearestQuarterHour m).toNat : Int) =
      roundToNearestQuarterHour m := Int.toNat_of_nonneg hnn
  have hle : (roundToNearestQuarterHour m).toNat ≤ 480 := by
    unfold roundToNearestQuarterHour at *; omega
  have hmod : (roundToNearestQuarterHour m).toNat % 15 = 0 := by
    unfold roundToNearestQuarterHour at *; omega
  refine ⟨?_, hcast⟩
  have h := parse_format_multiple (roundToNearestQuarterHour m).toNat hle hmod
  rwa [hcast] at h

/-- Witness for C5: the round trip at `m = 100` (which rounds to 105). -/
theorem parse_format_roundtrip_witness :
    parseTimeInput (formatMinutes (roundToNearestQuarterHour 100)) =
      some { minutes := (roundToNearestQuarterHour 100).toNat,
             originalInput := formatMinutes (roundToNearestQuarterHour 100) } ∧
    ((roundToNearestQuarterHour 100).toNat : Int) =
      roundToNearestQuarterHour 100 :=
  parse_format_roundtrip 100 (by decide) (by decide)

/-- `Char.ofNat` is left inverse to `Char.toNat` below the surrogate
range. -/
theorem charToNat_ofNat (n : Nat) (h : n < 55296) : (Char.ofNat n).toNat = n := by
  rw [Char.ofNat, dif_pos (Or.inl h : n.isValidChar)]
  rfl

/-- ASCII lowercasing does not change whether a character is
whitespace. -/
theorem isWsChar_asciiLower (c : Char) : isWsChar (asciiLower c) = isWsChar c := by
  by_cases h : 65 ≤ c.toNat ∧ c.toNat ≤ 90
  · have inner : asciiLower c = Char.ofNat (c.toNat + 32) := by
      unfold asciiLower; rw [if_pos h]
    have h32 : (Char.ofNat (c.toNat + 32)).toNat = c.toNat + 32 :=
      charToNat_ofNat _ (by omega)
    rw [inner]
    unfold isWsChar
    rw [h32, decide_eq_decide]
    omega
  · have inner : asciiLower c = c := by unfold asciiLower; rw [if_neg h]
    rw [inner]

/-- ASCII lowercasing is idempotent. -/
theorem asciiLower_idem (c : Char) : asciiLower (asciiLower c) = asciiLower c := by
  by_cases h : 65 ≤ c.toNat ∧ c.toNat ≤ 90
  · have inner : asciiLower c = Char.ofNat (c.toNat + 32) := by
      unfold asciiLower; rw [if_pos h]
    have h32 : (Char.ofNat (c.toNat + 32)).toNat = c.toNat + 32 :=
      charToNat_ofNat _ (by omega)
    rw [inner]
    unfold asciiLower
    rw [h32, if_neg (by omega)]
  · have inner : asciiLower c = c := by unfold asciiLower; rw [if_neg h]
    rw [inner]
    exact inner

theorem trimLeftWs_map_asciiLower (l : List Char) :
    trimLeftWs (l.map asciiLower) = (trimLeftWs l).map asciiLower := by
  induction l with
  | nil => rfl
  | cons c cs ih =>
    by_cases h : isWsChar c = true <;>
      simp [trimLeftWs, isWsChar_asciiLower, h, ih]

theorem trimRightWs_map_asciiLower (l : List Char) :
    trimRightWs (l.map asciiLower) = (trimRightWs l).map asciiLower := by
  induction l with
  | nil => rfl
  | cons c cs ih =>
    by_cases hw : isWsChar c = true <;>
      cases h : trimRightWs cs <;>
        simp [trimRightWs, isWsChar_asciiLower, ih, h, hw]

theorem trimLeftWs_idem (l : List Char) :
    trimLeftWs (trimLeftWs l) = trimLeftWs l := by
  induction l with
  | nil => rfl
  | cons c cs ih =>
    by_cases h : isWsChar c = true <;> simp [trimLeftWs, h, ih]

theorem trimRightWs_idem (l : List Char) :
    trimRightWs (trimRightWs l) = trimRightWs l := by
  induction l with
  | nil => rfl
  | cons c cs ih =>
    by_cases hc : ((trimRightWs cs).isEmpty && isWsChar c) = true
    · simp only [trimRightWs, if_pos hc]
    · simp only [trimRightWs, if_neg hc]
      simp only [trimRightWs, ih]
      rw [if_neg hc]

theorem trimLeftWs_trimRightWs (l : List Char) (h : trimLeftWs l = l) :
    trimLeftWs (trimRightWs l) = trimRightWs l := by
  cases l with
  | nil => rfl
  | cons c cs =>
    have hlen : ∀ t : List Char, (trimLeftWs t).length ≤ t.length := by
      intro t
      induction t with
      | nil => simp [trimLeftWs]
      | cons x xs ihx =>
        by_cases hx : isWsChar x = true
        · simp only [trimLeftWs, if_pos hx, List.length_cons]
          omega
        · simp [trimLeftWs, hx]
    have hc : isWsChar c = false := by
      by_contra hcc
      have hcc' : isWsChar c = true := by
        cases hcase : isWsChar c
        · exact absurd hcase hcc
        · rfl
      have : trimLeftWs (c :: cs) = trimLeftWs cs := by
        simp [trimLeftWs, hcc']
      rw [h] at this
      have := congrArg List.length this
      have hl := hlen cs
      simp at this
      omega
    simp only [trimRightWs]
    by_cases hcase : ((trimRightWs cs).isEmpty && isWsChar c) = true
    · rw [if_pos hcase]; rfl
    · rw [if_neg hcase]
      simp [trimLeftWs, hc]

theorem map_asciiLower_idem (l : List Char) :
    (l.map asciiLower).map asciiLower = l.map asciiLower := by
  induction l with
  | nil => rfl
  | cons c cs ih => simp [asciiLower_idem, ih]

/-- Normalisation (trim + lowercase) is idempotent. -/
theorem normalizeInput_idem (l : List Char) :
    normalizeInput (normalizeInput l) = normalizeInput l := by
  unfold normalizeInput
  rw [trimLeftWs_map_asciiLower, trimRightWs_map_asciiLower,
    map_asciiLower_idem, trimLeftWs_trimRightWs _ (trimLeftWs_idem l),
    trimRightWs_idem]

/-- C8: parsing is insensitive to case and to leading/trailing
whitespace — `parseTimeInput s` and `parseTimeInput` of the lowercased
trimmed form of `s` agree on the minute count — and a successful parse
returns the caller's original untrimmed string in `originalInput`. -/
theorem parseTimeInput_normalize (s : List Char) :
    Option.map ParsedTime.minutes (parseTimeInput s) =
      Option.map ParsedTime.minutes (parseTimeInput (normalizeInput s)) ∧
    ∀ r, parseTimeInput s = some r → r.originalInput = s := by
  constructor
  · cases s with
    | nil => rfl
    | cons c cs =>
      cases h : normalizeInput (c :: cs) with
      | nil =>
        simp only [parseTimeInput, h]
        rw [show parseCore ([] : List Char) = none from rfl]
        rfl
      | cons d ds =>
        have hidem := normalizeInput_idem (c :: cs)
        rw [h] at hidem
        simp only [parseTimeInput, h, hidem]
        cases parseCore (d :: ds) <;> simp
  · intro r hr
    cases s with
    | nil => simp [parseTimeInput] at hr
    | cons c cs =>
      simp only [parseTimeInput] at hr
      cases hpc : parseCore (normalizeInput (c :: cs)) with
      | none => rw [hpc] at hr; simp at hr
      | some v =>
        rw [hpc] at hr
        simp at hr
        rw [← hr]

/-- Witness for C8: the agreement and the preserved original input at
the concrete string `" 90 "`. -/
theorem parseTimeInput_normalize_witness :
    Option.map ParsedTime.minutes (parseTimeInput " 90 ".data) =
      Option.map ParsedTime.minutes
        (parseTimeInput (normalizeInput " 90 ".data)) ∧
    ParsedTime.originalInput
        { minutes := 90, originalInput := " 90 ".data } = " 90 ".data :=
  ⟨(parseTimeInput_normalize " 90 ".data).1,
   (parseTimeInput_normalize " 90 ".data).2
     { minutes := 90, originalInput := " 90 ".data } (by decide)⟩

/-- C2: `parseTimeInput` tries the three recognised formats on the
trimmed, lowercased input in priority order with first match winning:
(1) `HH:MM` with minutes < 60 yields `hours * 60 + minutes`; (2) an
`<n>h` and/or `<n>m` token (at least one present) yields
`round(hours*60) + minutes`; (3) an all-digit string is taken as minutes
subject to the pure-number rule; and the six concrete examples of the
spec parse as stated. -/
theorem parseTimeInput_formats :
    (∀ (s : List Char) (h mm : Nat), s ≠ [] →
      hhmmShape (normalizeInput s) = some (h, mm) → mm < 60 →
      parseTimeInput s =
        some { minutes := h * 60 + mm, originalInput := s }) ∧
    (∀ s : List Char, s ≠ [] → hhmmParse (normalizeInput s) = none →
      ((findHourToken (normalizeInput s)).isSome ||
        (findMinuteToken (normalizeInput s)).isSome) = true →
      parseTimeInput s =
        some { minutes :=
                 hourContribution (findHourToken (normalizeInput s)) +
                 minuteContribution (findMinuteToken (normalizeInput s)),
               originalInput := s }) ∧
    (∀ s : List Char, s ≠ [] → hhmmParse (normalizeInput s) = none →
      findHourToken (normalizeInput s) = none →
      findMinuteToken (normalizeInput s) = none →
      parseTimeInput s =
        Option.map (fun v => { minutes := v, originalInput := s })
          (pureNumber (normalizeInput s))) ∧
    parseTimeInput "90".data =
      some { minutes := 90, originalInput := "90".data } ∧
    parseTimeInput "2h".data =
      some { minutes := 120, originalInput := "2h".data } ∧
    parseTimeInput "45m".data =
      some { minutes := 45, originalInput := "45m".data } ∧
    parseTimeInput "1h 30m".data =
      some { minutes := 90, originalInput := "1h 30m".data } ∧
    parseTimeInput "01:30".data =
      some { minutes := 90, originalInput := "01:30".data } ∧
    parseTimeInput "1.5h".data =
      some { minutes := 90, originalInput := "1.5h".data } := by
  refine ⟨fun s h mm hne hsh hlt => ?_, fun s hne h0 hcond => ?_,
    fun s hne h0 hH hM => ?_,
    by decide, by decide, by decide, by decide, by decide, by decide⟩
  · cases s with
    | nil => exact absurd rfl hne
    | cons c cs =>
      have hp : hhmmParse (normalizeInput (c :: cs)) = some (h * 60 + mm) := by
        simp [hhmmParse, hsh, hlt]
      simp [parseTimeInput, parseCore, hp]
  · cases s with
    | nil => exact absurd rfl hne
    | cons c cs =>
      simp [parseTimeInput, parseCore, h0, hcond]
  · cases s with
    | nil => exact absurd rfl hne
    | cons c cs =>
      simp [parseTimeInput, parseCore, h0, hH, hM]

/-- C3: `parseTimeInput` signals failure only as data: it returns `none`
exactly when none of the three matchers accepts the normalised input
(which covers empty/whitespace-only strings), where the pure-number
matcher rejects exactly the non-digit, empty, or over-480 strings; the
four concrete failure examples of the spec return `none`. -/
theorem parseTimeInput_failure :
    (∀ s : List Char, parseTimeInput s = none ↔
      (hhmmParse (normalizeInput s) = none ∧
       findHourToken (normalizeInput s) = none ∧
       findMinuteToken (normalizeInput s) = none ∧
       pureNumber (normalizeInput s) = none)) ∧
    (∀ t : List Char, pureNumber t = none ↔
      (t = [] ∨ ¬ (∀ c ∈ t, isDigitChar c = true) ∨ 480 < digitsVal t)) ∧
    parseTimeInput "invalid".data = none ∧
    parseTimeInput "".data = none ∧
    parseTimeInput "25:61".data = none ∧
    parseTimeInput "500".data = none := by
  refine ⟨fun s => ?_, fun t => ?_, by decide, by decide, by decide, by decide⟩
  · cases s with
    | nil => decide
    | cons c cs =>
      simp only [parseTimeInput]
      cases hh : hhmmParse (normalizeInput (c :: cs)) with
      | some v => simp [parseCore, hh]
      | none =>
        cases hH : findHourToken (normalizeInput (c :: cs)) with
        | some x => simp [parseCore, hh, hH]
        | none =>
          cases hM : findMinuteToken (normalizeInput (c :: cs)) with
          | some y => simp [parseCore, hh, hH, hM]
          | none => simp [parseCore, hh, hH, hM]
  · by_cases h1 : t = []
    · subst h1; simp [pureNumber]
    · have hne : t.isEmpty = false := by
        cases t
        · exact absurd rfl h1
        · rfl
      constructor
      · intro hnone
        by_cases h2 : t.all isDigitChar = true
        · by_cases h3 : digitsVal t ≤ 480
          · exfalso
            have hsome : pureNumber t = some (digitsVal t) := by
              simp [pureNumber, hne, h2, h3]
            rw [hsome] at hnone
            exact Option.noConfusion hnone
          · exact Or.inr (Or.inr (by omega))
        · refine Or.inr (Or.inl ?_)
          intro hall
          exact h2 (List.all_eq_true.mpr hall)
      · intro hr
        rcases hr with h | h | h
        · exact absurd h h1
        · have h2 : t.all isDigitChar = false := by
            cases hcase : t.all isDigitChar
            · rfl
            · exact absurd (List.all_eq_true.mp hcase) h
          simp [pureNumber, h2]
        · by_cases h2 : t.all isDigitChar = true
          · simp [pureNumber, hne, h2]
            omega
          · simp [pureNumber, h2]

/-- Witness for C2: the three branch characterisations applied at
`"01:30"`, `"1h 30m"` and `"90"`. -/
theorem parseTimeInput_formats_witness :
    parseTimeInput "01:30".data =
      some { minutes := 1 * 60 + 30, originalInput := "01:30".data } ∧
    parseTimeInput "1h 30m".data =
      some { minutes :=
               hourContribution (findHourToken (normalizeInput "1h 30m".data)) +
               minuteContribution
                 (findMinuteToken (normalizeInput "1h 30m".data)),
             originalInput := "1h 30m".data } ∧
    parseTimeInput "90".data =
      Option.map (fun v => { minutes := v, originalInput := "90".data })
        (pureNumber (normalizeInput "90".data)) :=
  ⟨parseTimeInput_formats.1 "01:30".data 1 30 (by decide) (by decide)
     (by decide),
   parseTimeInput_formats.2.1 "1h 30m".data (by decide) (by decide)
     (by decide),
   parseTimeInput_formats.2.2.1 "90".data (by decide) (by decide) (by decide)
     (by decide)⟩

/-- Witness for C3: the failure characterisation applied at `"500"`,
whose parse is `none` because every matcher rejects it. -/
theorem parseTimeInput_failure_witness :
    hhmmParse (normalizeInput "500".data) = none ∧
    findHourToken (normalizeInput "500".data) = none ∧
    findMinuteToken (normalizeInput "500".data) = none ∧
    pureNumber (normalizeInput "500".data) = none :=
  (parseTimeInput_failure.1 "500".data).mp (by decide)

theorem splitRun_append (p : Char → Bool) (l : List Char) :
    (splitRun p l).1 ++ (splitRun p l).2 = l := by
  induction l with
  | nil => rfl
  | cons c cs ih => by_cases h : p c = true <;> simp [splitRun, h, ih]

theorem splitRun_all (p : Char → Bool) (d : List Char) (q : Char)
    (rest : List Char) (hd : ∀ c ∈ d, p c = true) (hq : p q = false) :
    splitRun p (d ++ q :: rest) = (d, q :: rest) := by
  induction d with
  | nil => simp [splitRun, hq]
  | cons c d' ih =>
    have hc : p c = true := hd c (List.mem_cons_self c d')
    have ih' := ih fun x hx => hd x (List.mem_cons_of_mem c hx)
    simp [splitRun, hc, ih']

theorem foldl_digits_replicate_zero (n : Nat) (a : Nat) :
    List.foldl (fun a c => 10 * a + digitVal c) a (List.replicate n '0') =
      a * 10 ^ n := by
  induction n generalizing a with
  | zero => simp
  | succ k ih =>
    rw [List.replicate_succ, List.foldl_cons, ih]
    show (10 * a + digitVal '0') * 10 ^ k = a * 10 ^ (k + 1)
    have : digitVal '0' = 0 := rfl
    rw [this, pow_succ]
    ring

theorem digitsVal_one_zeros (n : Nat) :
    digitsVal ('1' :: List.replicate n '0') = 10 ^ n := by
  unfold digitsVal
  rw [List.foldl_cons, foldl_digits_replicate_zero]
  show (10 * 0 + digitVal '1') * 10 ^ n = 10 ^ n
  have : digitVal '1' = 1 := rfl
  rw [this]
  ring

theorem hhmmShape_no_colon (t : List Char) (h : ∀ c ∈ t, (c == ':') = false) :
    hhmmShape t = none := by
  unfold hhmmShape
  split
  · next a b c d =>
    have hb : (b == ':') = false := h b (by simp)
    simp [hb]
  · next a a2 b c d =>
    have hb : (b == ':') = false := h b (by simp)
    simp [hb]
  · rfl

theorem findHourToken_digits_m (d : List Char)
    (hd : ∀ c ∈ d, isDigitChar c = true) :
    findHourToken (d ++ ['m']) = none := by
  induction d with
  | nil => rfl
  | cons c d' ih =>
    have hsp : splitRun isDigitChar ((c :: d') ++ ['m']) = (c :: d', ['m']) :=
      splitRun_all isDigitChar (c :: d') 'm' [] hd (by decide)
    have htry : tryHourAt ((c :: d') ++ ['m']) = none := by
      simp only [tryHourAt, hsp]
      rfl
    have ih' := ih fun x hx => hd x (List.mem_cons_of_mem c hx)
    simp only [List.cons_append] at htry ⊢
    simp only [findHourToken, htry, ih']

theorem findMinuteToken_digits_m (c : Char) (d' : List Char)
    (h : ∀ x ∈ c :: d', isDigitChar x = true) :
    findMinuteToken ((c :: d') ++ ['m']) = some (digitsVal (c :: d')) := by
  have hsp : splitRun isDigitChar ((c :: d') ++ ['m']) = (c :: d', ['m']) :=
    splitRun_all isDigitChar (c :: d') 'm' [] h (by decide)
  have htry : tryMinuteAt ((c :: d') ++ ['m']) =
      some (digitsVal (c :: d')) := by
    simp only [tryMinuteAt, hsp]
    rfl
  simp only [List.cons_append] at htry ⊢
  simp only [findMinuteToken, htry]

theorem trimLeftWs_eq_self (l : List Char)
    (h : ∀ c ∈ l, isWsChar c = false) : trimLeftWs l = l := by
  cases l with
  | nil => rfl
  | cons c cs => simp [trimLeftWs, h c (List.mem_cons_self c cs)]

theorem trimRightWs_eq_self (l : List Char)
    (h : ∀ c ∈ l, isWsChar c = false) : trimRightWs l = l := by
  induction l with
  | nil => rfl
  | cons c cs ih =>
    simp [trimRightWs, h c (List.mem_cons_self c cs),
      ih fun x hx => h x (List.mem_cons_of_mem c hx)]

theorem map_asciiLower_eq_self (l : List Char)
    (h : ∀ c ∈ l, asciiLower c = c) : l.map asciiLower = l := by
  induction l with
  | nil => rfl
  | cons c cs ih =>
    simp [h c (List.mem_cons_self c cs),
      ih fun x hx => h x (List.mem_cons_of_mem c hx)]

theorem normalizeInput_eq_self (l : List Char)
    (hw : ∀ c ∈ l, isWsChar c = false)
    (hl : ∀ c ∈ l, asciiLower c = c) : normalizeInput l = l := by
  unfold normalizeInput
  rw [trimLeftWs_eq_self l hw, trimRightWs_eq_self l hw,
    map_asciiLower_eq_self l hl]

/-- C7: the 480-minute ceiling applies only to the pure-number format:
token inputs produce arbitrarily large minute counts (for every `N` some
input parses to a value above `N`), `"500m"` parses to 500 and `"99:59"`
to 5999 while the pure number `"500"` is rejected — so oversized
durations are only caught by `validateTimeEntry`. -/
theorem parseTimeInput_no_ceiling :
    (∀ N : Nat, ∃ s : List Char, ∃ v : Nat,
      parseTimeInput s = some { minutes := v, originalInput := s } ∧ N < v) ∧
    parseTimeInput "500m".data =
      some { minutes := 500, originalInput := "500m".data } ∧
    parseTimeInput "99:59".data =
      some { minutes := 5999, originalInput := "99:59".data } ∧
    parseTimeInput "500".data = none := by
  refine ⟨fun N => ?_, by decide, by decide, by decide⟩
  refine ⟨('1' :: List.replicate N '0') ++ ['m'], 10 ^ N, ?_, ?_⟩
  · have hmem : ∀ c ∈ ('1' :: List.replicate N '0') ++ ['m'],
        c = '1' ∨ c = '0' ∨ c = 'm' := by
      intro c hc
      rcases List.mem_append.mp hc with h | h
      · rcases List.mem_cons.mp h with h | h
        · exact Or.inl h
        · exact Or.inr (Or.inl (List.eq_of_mem_replicate h))
      · exact Or.inr (Or.inr (List.mem_singleton.mp h))
    have hw : ∀ c ∈ ('1' :: List.replicate N '0') ++ ['m'],
        isWsChar c = false := by
      intro c hc; rcases hmem c hc with rfl | rfl | rfl <;> decide
    have hlo : ∀ c ∈ ('1' :: List.replicate N '0') ++ ['m'],
        asciiLower c = c := by
      intro c hc; rcases hmem c hc with rfl | rfl | rfl <;> decide
    have hnorm := normalizeInput_eq_self _ hw hlo
    have hdig : ∀ c ∈ '1' :: List.replicate N '0', isDigitChar c = true := by
      intro c hc
      rcases List.mem_cons.mp hc with rfl | h
      · decide
      · rw [List.eq_of_mem_replicate h]; decide
    have hcol : ∀ c ∈ ('1' :: List.replicate N '0') ++ ['m'],
        (c == ':') = false := by
      intro c hc; rcases hmem c hc with rfl | rfl | rfl <;> decide
    have hh : hhmmParse (('1' :: List.replicate N '0') ++ ['m']) = none := by
      unfold hhmmParse
      rw [hhmmShape_no_colon _ hcol]
    have hH := findHourToken_digits_m ('1' :: List.replicate N '0') hdig
    have hM := findMinuteToken_digits_m '1' (List.replicate N '0') hdig
    rw [digitsVal_one_zeros] at hM
    simp only [List.cons_append] at hnorm hh hH hM ⊢
    simp only [parseTimeInput, hnorm]
    simp [parseCore, hh, hH, hM, hourContribution, minuteContribution]
  · exact Nat.lt_pow_self (by norm_num) N

theorem splitRun_fst_all (p : Char → Bool) (l : List Char) :
    ∀ x ∈ (splitRun p l).1, p x = true := by
  induction l with
  | nil => intro x hx; simp [splitRun] at hx
  | cons c cs ih =>
    intro x hx
    by_cases h : p c = true
    · simp [splitRun, h] at hx
      rcases hx with rfl | hx
      · exact h
      · exact ih x hx
    · simp [splitRun, h] at hx

theorem containsTaskId_append_left (a t : List Char)
    (h : containsTaskId t = true) : containsTaskId (a ++ t) = true := by
  induction a with
  | nil => exact h
  | cons x a' ih =>
    simp only [List.cons_append, containsTaskId, Bool.or_eq_true]
    right
    exact ih

theorem decomp_containsTaskId (b c d : List Char) (hb : b ≠ [])
    (hub : ∀ x ∈ b, isUpperChar x = true) (hc : c ≠ [])
    (hdc : ∀ x ∈ c, isDigitChar x = true) :
    containsTaskId (b ++ '-' :: (c ++ d)) = true := by
  induction b with
  | nil => exact absurd rfl hb
  | cons x b' ih =>
    cases b' with
    | nil =>
      cases c with
      | nil => exact absurd rfl hc
      | cons y c' =>
        have hx : isUpperChar x = true := hub x (by simp)
        have hy : isDigitChar y = true := hdc y (by simp)
        have hdash : isUpperChar '-' = false := by decide
        have hsp : splitRun isUpperChar (x :: '-' :: y :: (c' ++ d)) =
            ([x], '-' :: y :: (c' ++ d)) := by
          simp [splitRun, hx, hdash]
        simp only [List.cons_append, List.nil_append, containsTaskId,
          Bool.or_eq_true]
        left
        simp [tryTaskIdAt, hsp, hy]
    | cons x2 b'' =>
      have ih' := ih (by simp) fun z hz => hub z (List.mem_cons_of_mem x hz)
      simp only [List.cons_append, containsTaskId, Bool.or_eq_true] at ih' ⊢
      right
      exact ih'

theorem containsTaskId_decomp (s : List Char) (h : containsTaskId s = true) :
    ∃ a b c d : List Char, s = a ++ b ++ '-' :: (c ++ d) ∧ b ≠ [] ∧
      (∀ x ∈ b, isUpperChar x = true) ∧ c ≠ [] ∧
      (∀ x ∈ c, isDigitChar x = true) := by
  induction s with
  | nil => simp [containsTaskId] at h
  | cons x xs ih =>
    simp only [containsTaskId, Bool.or_eq_true] at h
    rcases h with h | h
    · unfold tryTaskIdAt at h
      rw [Bool.and_eq_true] at h
      obtain ⟨hne, hmatch⟩ := h
      obtain ⟨u, r, hur⟩ : ∃ u r, splitRun isUpperChar (x :: xs) = (u, r) :=
        ⟨_, _, rfl⟩
      rw [hur] at hne hmatch
      simp only [Bool.not_eq_true'] at hne
      cases r with
      | nil => simp at hmatch
      | cons rc rr =>
        cases rr with
        | nil => simp at hmatch
        | cons y rest =>
          simp only [Bool.and_eq_true, beq_iff_eq] at hmatch
          obtain ⟨rfl, hy⟩ := hmatch
          have happ := splitRun_append isUpperChar (x :: xs)
          rw [hur] at happ
          refine ⟨[], u, [y], rest, ?_, ?_, ?_, by simp, ?_⟩
          · rw [← happ]; simp
          · intro hu
            rw [hu] at hne
            simp at hne
          · intro z hz
            have := splitRun_fst_all isUpperChar (x :: xs) z
            rw [hur] at this
            exact this hz
          · intro z hz
            simp at hz
            subst hz
            exact hy
    · obtain ⟨a, b, c, d, hs, hb, hub, hc, hdc⟩ := ih h
      exact ⟨x :: a, b, c, d, by rw [hs]; simp, hb, hub, hc, hdc⟩

/-- C9 (amended): `isValidTaskId s` is true exactly when `s` contains at
least one substring of the task-ID pattern — one or more uppercase
letters, a hyphen, then one or more digits — because `TASK_ID_REGEX` is
unanchored and `isValidTaskId` uses `test`; in particular it accepts
`feature/TRIP-142`, which is not itself of the pattern, while rejecting
`trip-142`, `TRIP142`, `TRIP-` and `-142`. -/
theorem isValidTaskId_contains :
    (∀ s : List Char, isValidTaskId s = true ↔
      ∃ a b c d : List Char, s = a ++ b ++ '-' :: (c ++ d) ∧ b ≠ [] ∧
        (∀ x ∈ b, isUpperChar x = true) ∧ c ≠ [] ∧
        (∀ x ∈ c, isDigitChar x = true)) ∧
    isValidTaskId "TRIP-142".data = true ∧
    isValidTaskId "feature/TRIP-142".data = true ∧
    isValidTaskId "trip-142".data = false ∧
    isValidTaskId "TRIP142".data = false ∧
    isValidTaskId "TRIP-".data = false ∧
    isValidTaskId "-142".data = false := by
  refine ⟨fun s => ⟨containsTaskId_decomp s, ?_⟩,
    by decide, by decide, by decide, by decide, by decide, by decide⟩
  rintro ⟨a, b, c, d, rfl, hb, hub, hc, hdc⟩
  unfold isValidTaskId
  rw [List.append_assoc]
  exact containsTaskId_append_left a _ (decomp_containsTaskId b c d hb hub hc hdc)

/-- C9 counterexample: `isValidTaskId` returns true on
`feature/TRIP-142` even though that string is not of the anchored
task-ID shape (uppercase letters, hyphen, digits), refuting the claim
that it returns false for every string not of the pattern. -/
theorem isValidTaskId_anchored_cex :
    isValidTaskId "feature/TRIP-142".data = true ∧
    specTaskIdShape "feature/TRIP-142".data = false := by decide

/-- Witness for C9 (amended): the substring characterisation applied at
the concrete string `xTRIP-9`. -/
theorem isValidTaskId_contains_witness :
    isValidTaskId "xTRIP-9".data = true :=
  (isValidTaskId_contains.1 "xTRIP-9".data).mpr
    ⟨['x'], "TRIP".data, "9".data, [], by decide, by decide, by decide,
     by decide, by decide⟩
